import Mathlib

/-!
Shallow embedding of the pooled staking / reward-accounting engine of
`src/contracts/BaseStakingRewards.sol` (contract `BaseStakingRewards`).

Modelling conventions:
* `uint256` values are modelled as `ℕ`.  The source uses SafeMath on
  Solidity 0.8, whose `add`/`mul`/`div` agree with `ℕ` arithmetic in every
  non-reverting execution; the guarded subtractions are exact in `ℕ` under
  the guards the code establishes (see `rewardDebt_le` below for the one
  unguarded subtraction).
* The contract manages several pools that share no state, so the state
  carries one pool; participants (`msg.sender`) are natural numbers.
* ERC20 transfers are balance moves that fail (atomically, like a revert)
  when the source balance is insufficient; `block.timestamp` is the
  explicit `now` argument of each operation.
* Fallible entry points return `Except EngineError EngineState`; an
  `error` result models a reverted transaction, i.e. no state change.
-/

/-- The fixed-point scale factor `1e12` of the source. -/
def SCALE : ℕ := 10 ^ 12

/-- Source `struct StakeInfo`: one participant's position. -/
structure StakeInfo where
  amount : ℕ
  timestamp : ℕ
  rewardDebt : ℕ
  active : Bool
deriving Repr, DecidableEq

/-- Source `struct PoolInfo` (the two token addresses are dropped:
token identity is fixed by the balance fields of `EngineState`). -/
structure PoolInfo where
  rewardPerSecond : ℕ
  lastRewardTime : ℕ
  accRewardPerShare : ℕ
  totalStaked : ℕ
  minStakeAmount : ℕ
  lockPeriod : ℕ
deriving Repr, DecidableEq

/-- Whole-system state for one pool: the pool record, the position of each
participant (`userInfo`), the contract's custody balances of the staking
and reward tokens, and each participant's balances of the two tokens. -/
structure EngineState where
  pool : PoolInfo
  users : ℕ → StakeInfo
  stakeBal : ℕ
  rewardBal : ℕ
  userStakeBal : ℕ → ℕ
  userRewardBal : ℕ → ℕ

/-- Errors of the fallible entry points (the source's `require` strings). -/
inductive EngineError where
  | belowMinimumStake
  | noActiveStake
  | insufficientStake
  | stillLocked
  | noPendingRewards
  | transferFailed
deriving Repr, DecidableEq

/-- Function `updatePool` (source lines 86–104): settle the pool's accumulator up
to `now`. -/
def updatePool (now : ℕ) (p : PoolInfo) : PoolInfo :=
  if now ≤ p.lastRewardTime then p
  else if p.totalStaked = 0 then { p with lastRewardTime := now }
  else
    let timeElapsed := now - p.lastRewardTime
    let reward := timeElapsed * p.rewardPerSecond
    { p with
      accRewardPerShare := p.accRewardPerShare + reward * SCALE / p.totalStaked
      lastRewardTime := now }

/-- Function `safeRewardTransfer` (source lines 219–228): the amount of reward
token actually paid when `amount` is requested and the contract holds
`rewardBal` — the full request, capped by the available balance. -/
def safeRewardTransfer (amount rewardBal : ℕ) : ℕ :=
  if amount > rewardBal then rewardBal else amount

/-- Function `deposit` (source lines 109–135). -/
def deposit (now who amount : ℕ) (s : EngineState) : Except EngineError EngineState :=
  if amount < s.pool.minStakeAmount then .error .belowMinimumStake
  else
    let pool := updatePool now s.pool
    let u := s.users who
    let pending := if u.active then u.amount * pool.accRewardPerShare / SCALE - u.rewardDebt else 0
    let paid := safeRewardTransfer pending s.rewardBal
    if s.userStakeBal who < amount then .error .transferFailed
    else
      .ok
        { pool := { pool with totalStaked := pool.totalStaked + amount }
          users := Function.update s.users who
            { amount := u.amount + amount
              timestamp := now
              rewardDebt := (u.amount + amount) * pool.accRewardPerShare / SCALE
              active := true }
          stakeBal := s.stakeBal + amount
          rewardBal := s.rewardBal - paid
          userStakeBal := Function.update s.userStakeBal who (s.userStakeBal who - amount)
          userRewardBal := Function.update s.userRewardBal who (s.userRewardBal who + paid) }

/-- Function `withdraw` (source lines 140–170). -/
def withdraw (now who amount : ℕ) (s : EngineState) : Except EngineError EngineState :=
  let u := s.users who
  if !u.active then .error .noActiveStake
  else if u.amount < amount then .error .insufficientStake
  else if now < u.timestamp + s.pool.lockPeriod then .error .stillLocked
  else
    let pool := updatePool now s.pool
    let pending := u.amount * pool.accRewardPerShare / SCALE - u.rewardDebt
    let paid := safeRewardTransfer pending s.rewardBal
    let newAmt := u.amount - amount
    if s.stakeBal < amount then .error .transferFailed
    else
      .ok
        { pool := { pool with totalStaked := pool.totalStaked - amount }
          users := Function.update s.users who
            { amount := newAmt
              timestamp := u.timestamp
              rewardDebt := newAmt * pool.accRewardPerShare / SCALE
              active := if newAmt = 0 then false else u.active }
          stakeBal := s.stakeBal - amount
          rewardBal := s.rewardBal - paid
          userStakeBal := Function.update s.userStakeBal who (s.userStakeBal who + amount)
          userRewardBal := Function.update s.userRewardBal who (s.userRewardBal who + paid) }

/-- Function `harvest` (source lines 175–190). -/
def harvest (now who : ℕ) (s : EngineState) : Except EngineError EngineState :=
  let u := s.users who
  if !u.active then .error .noActiveStake
  else
    let pool := updatePool now s.pool
    let pending := u.amount * pool.accRewardPerShare / SCALE - u.rewardDebt
    if pending = 0 then .error .noPendingRewards
    else
      let paid := safeRewardTransfer pending s.rewardBal
      .ok
        { pool := pool
          users := Function.update s.users who
            { u with rewardDebt := u.amount * pool.accRewardPerShare / SCALE }
          stakeBal := s.stakeBal
          rewardBal := s.rewardBal - paid
          userStakeBal := s.userStakeBal
          userRewardBal := Function.update s.userRewardBal who (s.userRewardBal who + paid) }

/-- Function `emergencyWithdraw` (source lines 233–248).  Note: the source does not
call `updatePool` here; `now` is unused, kept for interface uniformity. -/
def emergencyWithdraw (now who : ℕ) (s : EngineState) : Except EngineError EngineState :=
  let _ := now
  let u := s.users who
  if !u.active then .error .noActiveStake
  else
    let amount := u.amount
    if s.stakeBal < amount then .error .transferFailed
    else
      .ok
        { pool := { s.pool with totalStaked := s.pool.totalStaked - amount }
          users := Function.update s.users who
            { amount := 0
              timestamp := u.timestamp
              rewardDebt := 0
              active := false }
          stakeBal := s.stakeBal - amount
          rewardBal := s.rewardBal
          userStakeBal := Function.update s.userStakeBal who (s.userStakeBal who + amount)
          userRewardBal := s.userRewardBal }

/-- Function `pendingReward` (source lines 195–214): read-only pending-reward query. -/
def pendingReward (now who : ℕ) (s : EngineState) : ℕ :=
  let u := s.users who
  if !u.active then 0
  else
    let acc :=
      if now > s.pool.lastRewardTime ∧ s.pool.totalStaked ≠ 0 then
        s.pool.accRewardPerShare +
          (now - s.pool.lastRewardTime) * s.pool.rewardPerSecond * SCALE / s.pool.totalStaked
      else s.pool.accRewardPerShare
    u.amount * acc / SCALE - u.rewardDebt

/-- Function `addPool` (source lines 53–72) composed with fresh external balances:
the state right after pool creation at time `t0`, every position empty. -/
def initState (rps minS lock t0 rewardFunding : ℕ) (bal : ℕ → ℕ) : EngineState :=
  { pool :=
      { rewardPerSecond := rps
        lastRewardTime := t0
        accRewardPerShare := 0
        totalStaked := 0
        minStakeAmount := minS
        lockPeriod := lock }
    users := fun _ => { amount := 0, timestamp := 0, rewardDebt := 0, active := false }
    stakeBal := 0
    rewardBal := rewardFunding
    userStakeBal := bal
    userRewardBal := fun _ => 0 }

/-- One engine transaction: the participant, the entry point and its
arguments. -/
inductive Op where
  | deposit (who amount : ℕ)
  | withdraw (who amount : ℕ)
  | harvest (who : ℕ)
  | emergencyWithdraw (who : ℕ)
deriving Repr, DecidableEq

/-- The participant an operation acts for. -/
def Op.who : Op → ℕ
  | .deposit w _ => w
  | .withdraw w _ => w
  | .harvest w => w
  | .emergencyWithdraw w => w

/-- Dispatch one timestamped operation. -/
def step (now : ℕ) (op : Op) (s : EngineState) : Except EngineError EngineState :=
  match op with
  | .deposit who amount => deposit now who amount s
  | .withdraw who amount => withdraw now who amount s
  | .harvest who => harvest now who s
  | .emergencyWithdraw who => emergencyWithdraw now who s

/-- Run a sequence of timestamped operations; `some` only when every
operation completes successfully. -/
def runOps : List (ℕ × Op) → EngineState → Option EngineState
  | [], s => some s
  | (now, op) :: rest, s =>
    match step now op s with
    | .ok s' => runOps rest s'
    | .error _ => none

/-! ## General lemmas about `updatePool` -/

theorem SCALE_ne_zero : SCALE ≠ 0 :=
  pow_ne_zero 12 (by omega)

theorem updatePool_rewardPerSecond (now : ℕ) (p : PoolInfo) :
    (updatePool now p).rewardPerSecond = p.rewardPerSecond := by
  unfold updatePool
  split
  · rfl
  · split <;> rfl

theorem updatePool_totalStaked (now : ℕ) (p : PoolInfo) :
    (updatePool now p).totalStaked = p.totalStaked := by
  unfold updatePool
  split
  · rfl
  · split <;> rfl

theorem updatePool_minStakeAmount (now : ℕ) (p : PoolInfo) :
    (updatePool now p).minStakeAmount = p.minStakeAmount := by
  unfold updatePool
  split
  · rfl
  · split <;> rfl

theorem updatePool_lockPeriod (now : ℕ) (p : PoolInfo) :
    (updatePool now p).lockPeriod = p.lockPeriod := by
  unfold updatePool
  split
  · rfl
  · split <;> rfl

theorem updatePool_lastRewardTime (now : ℕ) (p : PoolInfo) :
    (updatePool now p).lastRewardTime = max p.lastRewardTime now := by
  unfold updatePool
  split
  · simp [Nat.max_eq_left ‹now ≤ p.lastRewardTime›]
  · have h : p.lastRewardTime ≤ now := le_of_not_le ‹¬ now ≤ p.lastRewardTime›
    split <;> simp [Nat.max_eq_right h]

theorem updatePool_acc_mono (now : ℕ) (p : PoolInfo) :
    p.accRewardPerShare ≤ (updatePool now p).accRewardPerShare := by
  unfold updatePool
  split
  · exact le_refl _
  · split
    · exact le_refl _
    · exact Nat.le_add_right _ _

theorem updatePool_idem (now : ℕ) (p : PoolInfo) :
    updatePool now (updatePool now p) = updatePool now p := by
  have h : now ≤ (updatePool now p).lastRewardTime := by
    rw [updatePool_lastRewardTime]; exact le_max_right _ _
  generalize updatePool now p = q at h ⊢
  unfold updatePool
  rw [if_pos h]

/-! ## C1: `updatePool` behaviour -/

/-- C1: for every pool and timestamp `now`: if `now ≤ lastRewardTime` the
pool is unchanged; if `now > lastRewardTime` and `totalStaked = 0` only
`lastRewardTime` is set to `now`; otherwise `accRewardPerShare` grows by
exactly `⌊(now - lastRewardTime) * rewardPerSecond * 10^12 / totalStaked⌋`
and `lastRewardTime` is set to `now`, no other field changing. -/
theorem updatePool_spec (now : ℕ) (p : PoolInfo) :
    (now ≤ p.lastRewardTime → updatePool now p = p) ∧
    (p.lastRewardTime < now → p.totalStaked = 0 →
      updatePool now p = { p with lastRewardTime := now }) ∧
    (p.lastRewardTime < now → p.totalStaked ≠ 0 →
      updatePool now p =
        { p with
          accRewardPerShare := p.accRewardPerShare +
            (now - p.lastRewardTime) * p.rewardPerSecond * SCALE / p.totalStaked
          lastRewardTime := now }) := by
  refine ⟨fun h => ?_, fun h h0 => ?_, fun h h0 => ?_⟩
  · unfold updatePool
    rw [if_pos h]
  · unfold updatePool
    rw [if_neg (by omega), if_pos h0]
  · unfold updatePool
    rw [if_neg (by omega), if_neg h0]

/-- A sample pool used to instantiate the `updatePool` theorems. -/
def c1pool : PoolInfo :=
  { rewardPerSecond := 2
    lastRewardTime := 10
    accRewardPerShare := 7
    totalStaked := 50
    minStakeAmount := 1
    lockPeriod := 3 }

theorem updatePool_spec_witness :
    updatePool 5 c1pool = c1pool ∧
    updatePool 20 { c1pool with totalStaked := 0 } =
      { c1pool with totalStaked := 0, lastRewardTime := 20 } ∧
    updatePool 20 c1pool =
      { c1pool with accRewardPerShare := 7 + 400000000000, lastRewardTime := 20 } := by
  refine ⟨(updatePool_spec 5 c1pool).1 (by decide),
          (updatePool_spec 20 _).2.1 (by decide) (by decide), ?_⟩
  rw [(updatePool_spec 20 c1pool).2.2 (by decide) (by decide)]
  decide

/-! ## C9: division by zero is unreachable -/

/-- Division that reports a zero divisor instead of defaulting to 0. -/
def checkedDiv (a b : ℕ) : Option ℕ :=
  if b = 0 then none else some (a / b)

/-- Variant of `updatePool` with its division by `totalStaked` checked: `none` would
mean the code path reaches a division by zero. -/
def updatePoolChecked (now : ℕ) (p : PoolInfo) : Option PoolInfo :=
  if now ≤ p.lastRewardTime then some p
  else if p.totalStaked = 0 then some { p with lastRewardTime := now }
  else
    let timeElapsed := now - p.lastRewardTime
    let reward := timeElapsed * p.rewardPerSecond
    match checkedDiv (reward * SCALE) p.totalStaked with
    | none => none
    | some q =>
      some { p with accRewardPerShare := p.accRewardPerShare + q, lastRewardTime := now }

/-- Variant of `pendingReward` with every division checked (by `totalStaked` and by
the constant scale factor). -/
def pendingRewardChecked (now who : ℕ) (s : EngineState) : Option ℕ :=
  let u := s.users who
  if !u.active then some 0
  else
    let accOpt : Option ℕ :=
      if now > s.pool.lastRewardTime ∧ s.pool.totalStaked ≠ 0 then
        match checkedDiv ((now - s.pool.lastRewardTime) * s.pool.rewardPerSecond * SCALE)
            s.pool.totalStaked with
        | none => none
        | some q => some (s.pool.accRewardPerShare + q)
      else some s.pool.accRewardPerShare
    match accOpt with
    | none => none
    | some acc =>
      match checkedDiv (u.amount * acc) SCALE with
      | none => none
      | some d => some (d - u.rewardDebt)

/-- C9: no division by zero is reachable: the checked variants of the two
functions that divide by `totalStaked` never report a zero divisor and
agree with the unchecked embedding on every input, the divisions being
guarded by `totalStaked ≠ 0` and the remaining divisor being the nonzero
constant `10^12`. -/
theorem no_division_by_zero (now who : ℕ) (p : PoolInfo) (s : EngineState) :
    updatePoolChecked now p = some (updatePool now p) ∧
    pendingRewardChecked now who s = some (pendingReward now who s) := by
  constructor
  · unfold updatePoolChecked updatePool checkedDiv
    by_cases h1 : now ≤ p.lastRewardTime
    · simp [h1]
    · by_cases h2 : p.totalStaked = 0
      · simp [h1, h2]
      · simp [h1, h2]
  · unfold pendingRewardChecked pendingReward checkedDiv
    by_cases hu : (!(s.users who).active) = true
    · simp [hu]
    · by_cases hc : now > s.pool.lastRewardTime ∧ s.pool.totalStaked ≠ 0
      · simp [hu, hc, hc.2, SCALE_ne_zero]
      · simp [hu, hc, SCALE_ne_zero]

/-! ## C3: the concrete two-participant scenario of the spec -/

/-- Fresh pool for the spec's scenario 6: `rewardPerSecond = 1`,
`minStake = 10`, `lockPeriod = 100`, created at `t = 0`; participants hold
plenty of stake token. -/
def c3init : EngineState := initState 1 10 100 0 1000000 (fun _ => 1000)

/-- State after participant A (= 0) deposits 100 at `t = 0`. -/
def c3s1 : Except EngineError EngineState := deposit 0 0 100 c3init

/-- State after participant B (= 1) additionally deposits 100 at `t = 100`. -/
def c3s2 : Except EngineError EngineState := c3s1.bind (deposit 100 1 100)

/-- C3: in the spec's concrete scenario, A's pending reward at `t = 100`
is 100; B's pending immediately after B's deposit at `t = 100` is 0; at
`t = 200` A's pending is 150 and B's is 50. -/
theorem concrete_scenario :
    c3s1.map (pendingReward 100 0) = .ok 100 ∧
    c3s2.map (pendingReward 100 1) = .ok 0 ∧
    c3s2.map (pendingReward 200 0) = .ok 150 ∧
    c3s2.map (pendingReward 200 1) = .ok 50 := by
  refine ⟨?_, ?_, ?_, ?_⟩ <;> rfl

/-! ## C4: which operations accrue first -/

/-- A state with an active position and a stale accumulator, used to show
that `emergencyWithdraw` does not accrue. -/
def c4state : EngineState :=
  { pool :=
      { rewardPerSecond := 1
        lastRewardTime := 0
        accRewardPerShare := 0
        totalStaked := 5
        minStakeAmount := 1
        lockPeriod := 10 }
    users := fun _ => { amount := 5, timestamp := 0, rewardDebt := 0, active := true }
    stakeBal := 5
    rewardBal := 100
    userStakeBal := fun _ => 1000
    userRewardBal := fun _ => 0 }

/-- C4 counterexample: `emergencyWithdraw` completes successfully at
`now = 50`, with the pool's previous `lastRewardTime = 0 ≤ 50`, yet
afterwards `lastRewardTime` is still 0, not 50 — the source's
`emergencyWithdraw` never calls `updatePool`, contradicting the claim
that every state-changing operation accrues first. -/
theorem accrue_first_counterexample :
    c4state.pool.lastRewardTime ≤ 50 ∧
    (emergencyWithdraw 50 0 c4state).isOk = true ∧
    (emergencyWithdraw 50 0 c4state).map (fun t => t.pool.lastRewardTime) = .ok 0 ∧
    (0 : ℕ) ≠ 50 := by
  exact ⟨by decide, by decide, rfl, by decide⟩

/-- C4 amended: `deposit`, `withdraw` and `harvest` accrue as their first
state-changing step — whenever one of them completes successfully at time
`now ≥ lastRewardTime`, the pool's `lastRewardTime` equals `now`
afterwards — but `emergencyWithdraw` does not accrue: it leaves both
`lastRewardTime` and `accRewardPerShare` exactly as they were. -/
theorem accrue_first_amended (now who amount : ℕ) (s s' : EngineState)
    (hle : s.pool.lastRewardTime ≤ now) :
    (deposit now who amount s = .ok s' → s'.pool.lastRewardTime = now) ∧
    (withdraw now who amount s = .ok s' → s'.pool.lastRewardTime = now) ∧
    (harvest now who s = .ok s' → s'.pool.lastRewardTime = now) ∧
    (emergencyWithdraw now who s = .ok s' →
      s'.pool.lastRewardTime = s.pool.lastRewardTime ∧
      s'.pool.accRewardPerShare = s.pool.accRewardPerShare) := by
  refine ⟨fun h => ?_, fun h => ?_, fun h => ?_, fun h => ?_⟩
  · simp only [deposit] at h
    split_ifs at h <;> cases h <;>
      simp [updatePool_lastRewardTime, Nat.max_eq_right hle]
  · simp only [withdraw] at h
    split_ifs at h <;> cases h <;>
      simp [updatePool_lastRewardTime, Nat.max_eq_right hle]
  · simp only [harvest] at h
    split_ifs at h <;> cases h <;>
      simp [updatePool_lastRewardTime, Nat.max_eq_right hle]
  · simp only [emergencyWithdraw] at h
    split_ifs at h <;> cases h <;> exact ⟨rfl, rfl⟩

/-- The state an operation reports on success, the input state otherwise. -/
def okState (r : Except EngineError EngineState) (fallback : EngineState) : EngineState :=
  match r with
  | .ok t => t
  | .error _ => fallback

/-- Result state of a successful deposit used to instantiate
`accrue_first_amended`. -/
def c4dep : EngineState := okState (deposit 50 0 100 c4state) c4state

/-- Result state of a successful emergency withdrawal used to instantiate
`accrue_first_amended`. -/
def c4emw : EngineState := okState (emergencyWithdraw 50 0 c4state) c4state

theorem accrue_first_amended_witness :
    c4dep.pool.lastRewardTime = 50 ∧
    c4emw.pool.lastRewardTime = c4state.pool.lastRewardTime ∧
    c4emw.pool.accRewardPerShare = c4state.pool.accRewardPerShare := by
  refine ⟨(accrue_first_amended 50 0 100 c4state c4dep (by decide)).1 rfl,
          (accrue_first_amended 50 0 100 c4state c4emw (by decide)).2.2.2 rfl⟩

/-! ## C6: lock-period enforcement in `withdraw` -/

/-- C6: for a withdraw of at most the staked amount from an active
position: strictly before `depositTime + lockPeriod` the call fails with
`StillLocked` (and, errors being atomic reverts, changes nothing); at or
after the unlock instant — the boundary included — it succeeds whenever
the custody transfer can be honoured. -/
theorem withdraw_lock_boundary (now who amount : ℕ) (s : EngineState)
    (hact : (s.users who).active = true)
    (hamt : amount ≤ (s.users who).amount) :
    (now < (s.users who).timestamp + s.pool.lockPeriod →
      withdraw now who amount s = .error .stillLocked) ∧
    ((s.users who).timestamp + s.pool.lockPeriod ≤ now → amount ≤ s.stakeBal →
      (withdraw now who amount s).isOk = true) := by
  constructor
  · intro hlock
    simp only [withdraw]
    rw [if_neg (by simp [hact]), if_neg (by omega), if_pos hlock]
  · intro hlock hbal
    simp only [withdraw]
    rw [if_neg (by simp [hact]), if_neg (by omega), if_neg (by omega), if_neg (by omega)]
    rfl

/-- A pool state with an active, partly-locked position used to
instantiate the lock-boundary theorem. -/
def c6state : EngineState :=
  { pool :=
      { rewardPerSecond := 0
        lastRewardTime := 0
        accRewardPerShare := 0
        totalStaked := 100
        minStakeAmount := 10
        lockPeriod := 100 }
    users := fun _ => { amount := 100, timestamp := 10, rewardDebt := 0, active := true }
    stakeBal := 100
    rewardBal := 0
    userStakeBal := fun _ => 0
    userRewardBal := fun _ => 0 }

theorem withdraw_lock_boundary_witness :
    withdraw 109 0 40 c6state = .error .stillLocked ∧
    (withdraw 110 0 40 c6state).isOk = true := by
  exact ⟨(withdraw_lock_boundary 109 0 40 c6state (by decide) (by decide)).1 (by decide),
         (withdraw_lock_boundary 110 0 40 c6state (by decide) (by decide)).2
           (by decide) (by decide)⟩

/-! ## C7: harvest preconditions and idempotence at one instant -/

/-- C7: `harvest` demands an active position (else `NoActiveStake`) and a
positive pending amount (else `NoPendingRewards`); and after a successful
harvest at time `now`, a second harvest by the same participant at the
same `now` fails with `NoPendingRewards` — errors being atomic reverts,
the second call changes no pool state, position state or balance. -/
theorem harvest_idempotent (now who : ℕ) (s s' : EngineState) :
    ((s.users who).active = false → harvest now who s = .error .noActiveStake) ∧
    ((s.users who).amount * (updatePool now s.pool).accRewardPerShare / SCALE
        - (s.users who).rewardDebt = 0 →
      (s.users who).active = true → harvest now who s = .error .noPendingRewards) ∧
    (harvest now who s = .ok s' → harvest now who s' = .error .noPendingRewards) := by
  refine ⟨fun hin => ?_, fun hp hact => ?_, fun h => ?_⟩
  · simp only [harvest]
    rw [if_pos (by simp [hin])]
  · simp only [harvest]
    rw [if_neg (by simp [hact]), if_pos hp]
  · simp only [harvest] at h
    split_ifs at h <;> cases h
    rename_i hact hp
    simp only [harvest, Function.update_same, updatePool_idem]
    rw [if_neg (by simpa using hact), if_pos (by omega)]

/-! ## C5: underfunded reward settlements pay the available balance -/

/-- C5: whenever the pending amount computed after accrual exceeds the
pool's reward balance, the settlement — in `harvest`, or inside `deposit`
or `withdraw` — still completes: it pays out exactly the available reward
balance (draining it to 0), resets the position's `rewardDebt` from the
current accumulator as if the full pending had been paid, and the
shortfall is nowhere recorded. -/
theorem underfunded_settlement (now who amount : ℕ) (s : EngineState)
    (hact : (s.users who).active = true)
    (hless : s.rewardBal <
      (s.users who).amount * (updatePool now s.pool).accRewardPerShare / SCALE
        - (s.users who).rewardDebt) :
    (harvest now who s).map
        (fun t => (t.rewardBal, t.userRewardBal who, (t.users who).rewardDebt))
      = .ok (0, s.userRewardBal who + s.rewardBal,
             (s.users who).amount * (updatePool now s.pool).accRewardPerShare / SCALE) ∧
    (s.pool.minStakeAmount ≤ amount → amount ≤ s.userStakeBal who →
      (deposit now who amount s).map
          (fun t => (t.rewardBal, t.userRewardBal who, (t.users who).rewardDebt))
        = .ok (0, s.userRewardBal who + s.rewardBal,
               ((s.users who).amount + amount) *
                 (updatePool now s.pool).accRewardPerShare / SCALE)) ∧
    (amount ≤ (s.users who).amount →
      (s.users who).timestamp + s.pool.lockPeriod ≤ now → amount ≤ s.stakeBal →
      (withdraw now who amount s).map
          (fun t => (t.rewardBal, t.userRewardBal who, (t.users who).rewardDebt))
        = .ok (0, s.userRewardBal who + s.rewardBal,
               ((s.users who).amount - amount) *
                 (updatePool now s.pool).accRewardPerShare / SCALE)) := by
  refine ⟨?_, fun hmin hbal => ?_, fun hamt hlock hbal => ?_⟩
  · simp only [harvest]
    rw [if_neg (by simp [hact]), if_neg (by omega)]
    simp [safeRewardTransfer, hless, Except.map, Function.update_same]
  · simp only [deposit]
    rw [if_neg (by omega), if_neg (by omega)]
    simp [hact, safeRewardTransfer, hless, Except.map, Function.update_same]
  · simp only [withdraw]
    rw [if_neg (by simp [hact]), if_neg (by omega), if_neg (by omega), if_neg (by omega)]
    simp [safeRewardTransfer, hless, Except.map, Function.update_same]

/-- A pool whose reward custody (30) is smaller than the participant's
pending reward (100): the spec's scenario 7. -/
def c5state : EngineState :=
  { pool :=
      { rewardPerSecond := 1
        lastRewardTime := 5
        accRewardPerShare := SCALE
        totalStaked := 100
        minStakeAmount := 10
        lockPeriod := 0 }
    users := fun _ => { amount := 100, timestamp := 0, rewardDebt := 0, active := true }
    stakeBal := 100
    rewardBal := 30
    userStakeBal := fun _ => 1000
    userRewardBal := fun _ => 0 }

theorem underfunded_settlement_witness :
    (harvest 5 0 c5state).map
        (fun t => (t.rewardBal, t.userRewardBal 0, (t.users 0).rewardDebt))
      = .ok (0, 30, 100) := by
  have h := (underfunded_settlement 5 0 0 c5state (by decide) (by decide)).1
  simpa using h

/-! ## C8: emergency withdrawal -/

/-- C8: on any active position, `emergencyWithdraw` succeeds with no
regard to the lock period or to accrued pending rewards: it returns
exactly the staked amount of the stake asset to the participant, pays no
reward asset, zeroes the position (`amount = 0`, `rewardDebt = 0`,
`active = false`), decreases `totalStaked` by the prior amount, and any
later `pendingReward` query for that participant yields 0. -/
theorem emergencyWithdraw_spec (now t who : ℕ) (s : EngineState)
    (hact : (s.users who).active = true)
    (hbal : (s.users who).amount ≤ s.stakeBal) :
    (emergencyWithdraw now who s).map
        (fun r => (r.pool.totalStaked, r.users who, r.stakeBal, r.rewardBal,
                   r.userStakeBal who, r.userRewardBal who, pendingReward t who r))
      = .ok (s.pool.totalStaked - (s.users who).amount,
             { amount := 0, timestamp := (s.users who).timestamp,
               rewardDebt := 0, active := false },
             s.stakeBal - (s.users who).amount, s.rewardBal,
             s.userStakeBal who + (s.users who).amount, s.userRewardBal who, 0) := by
  simp only [emergencyWithdraw]
  rw [if_neg (by simp [hact]), if_neg (by omega)]
  simp [Except.map, Function.update_same, pendingReward]

/-- A still-locked position with positive pending rewards, used to
instantiate the emergency-withdrawal theorem. -/
def c8state : EngineState :=
  { pool :=
      { rewardPerSecond := 3
        lastRewardTime := 0
        accRewardPerShare := 2 * SCALE
        totalStaked := 50
        minStakeAmount := 10
        lockPeriod := 1000
      }
    users := fun _ => { amount := 50, timestamp := 0, rewardDebt := 0, active := true }
    stakeBal := 50
    rewardBal := 999
    userStakeBal := fun _ => 0
    userRewardBal := fun _ => 0 }

theorem emergencyWithdraw_spec_witness :
    (emergencyWithdraw 10 0 c8state).map
        (fun r => (r.pool.totalStaked, r.users 0, r.stakeBal, r.rewardBal,
                   r.userStakeBal 0, r.userRewardBal 0, pendingReward 10 0 r))
      = .ok (0, { amount := 0, timestamp := 0, rewardDebt := 0, active := false },
             0, 999, 50, 0, 0) := by
  have h := emergencyWithdraw_spec 10 10 0 c8state (by decide) (by decide)
  simpa using h

/-! ## C2: conservation of `totalStaked` -/

theorem sum_amount_update (S : Finset ℕ) (f : ℕ → StakeInfo) (who : ℕ)
    (v : StakeInfo) (h : who ∈ S) :
    (∑ p in S, (Function.update f who v p).amount)
      = v.amount + ∑ p in S.erase who, (f p).amount := by
  rw [← Finset.add_sum_erase S (fun p => (Function.update f who v p).amount) h,
      Function.update_same]
  congr 1
  refine Finset.sum_congr rfl fun p hp => ?_
  rw [Function.update_noteq (Finset.ne_of_mem_erase hp)]

theorem sum_amount_erase (S : Finset ℕ) (f : ℕ → StakeInfo) (who : ℕ) (h : who ∈ S) :
    (∑ p in S, (f p).amount)
      = (f who).amount + ∑ p in S.erase who, (f p).amount :=
  (Finset.add_sum_erase S (fun p => (f p).amount) h).symm

theorem step_preserves_conservation (now : ℕ) (op : Op) (S : Finset ℕ)
    (s s' : EngineState) (hwho : op.who ∈ S)
    (hc : s.pool.totalStaked = ∑ p in S, (s.users p).amount)
    (h : step now op s = .ok s') :
    s'.pool.totalStaked = ∑ p in S, (s'.users p).amount := by
  rw [sum_amount_erase S s.users op.who hwho] at hc
  cases op with
  | deposit who amount =>
    simp only [Op.who] at hwho hc
    simp only [step, deposit] at h
    split_ifs at h <;> cases h <;>
      (dsimp only
       rw [updatePool_totalStaked, sum_amount_update S s.users who _ hwho]
       dsimp only
       omega)
  | withdraw who amount =>
    simp only [Op.who] at hwho hc
    simp only [step, withdraw] at h
    split_ifs at h <;> cases h <;>
      (dsimp only
       rw [updatePool_totalStaked, sum_amount_update S s.users who _ hwho]
       dsimp only
       omega)
  | harvest who =>
    simp only [Op.who] at hwho hc
    simp only [step, harvest] at h
    split_ifs at h <;> cases h <;>
      (dsimp only
       rw [updatePool_totalStaked, sum_amount_update S s.users who _ hwho]
       dsimp only
       omega)
  | emergencyWithdraw who =>
    simp only [Op.who] at hwho hc
    simp only [step, emergencyWithdraw] at h
    split_ifs at h <;> cases h <;>
      (dsimp only
       rw [sum_amount_update S s.users who _ hwho]
       dsimp only
       omega)

theorem runOps_conservation (S : Finset ℕ) (ops : List (ℕ × Op)) :
    ∀ s s' : EngineState, (∀ o ∈ ops, o.2.who ∈ S) →
      s.pool.totalStaked = ∑ p in S, (s.users p).amount →
      runOps ops s = some s' →
      s'.pool.totalStaked = ∑ p in S, (s'.users p).amount := by
  induction ops with
  | nil =>
    intro s s' _ hc h
    cases h
    exact hc
  | cons hd tl ih =>
    intro s s' hS hc h
    obtain ⟨tnow, op⟩ := hd
    simp only [runOps] at h
    cases hstep : step tnow op s with
    | error e => rw [hstep] at h; cases h
    | ok s1 =>
      rw [hstep] at h
      exact ih s1 s' (fun o ho => hS o (List.mem_cons_of_mem _ ho))
        (step_preserves_conservation tnow op S s s1
          (hS (tnow, op) (List.mem_cons_self _ _)) hc hstep) h

/-- C2: starting from a freshly created pool, after any finite sequence of
successfully completed engine operations whose participants all lie in
`S`, the pool's `totalStaked` equals the sum of the position amounts over
`S`.  Every prefix of a successful run is itself a successful run, so this
holds at every observation point of the sequence. -/
theorem totalStaked_conservation (rps minS lock t0 fund : ℕ) (bal : ℕ → ℕ)
    (ops : List (ℕ × Op)) (S : Finset ℕ) (hS : ∀ o ∈ ops, o.2.who ∈ S)
    (s' : EngineState)
    (h : runOps ops (initState rps minS lock t0 fund bal) = some s') :
    s'.pool.totalStaked = ∑ p in S, (s'.users p).amount :=
  runOps_conservation S ops _ s' hS (by simp [initState]) h

/-- A five-operation run exercising all four entry points, used to
instantiate the conservation theorem. -/
def c2ops : List (ℕ × Op) :=
  [(0, .deposit 0 100), (10, .deposit 1 50), (200, .withdraw 0 30),
   (250, .harvest 1), (300, .emergencyWithdraw 0)]

/-- The fresh pool the conservation witness starts from. -/
def c2init : EngineState := initState 1 10 100 0 1000000000 (fun _ => 1000000)

/-- Final state of the conservation witness run. -/
def c2final : EngineState := (runOps c2ops c2init).getD c2init

theorem totalStaked_conservation_witness :
    c2final.pool.totalStaked = ∑ p in ({0, 1} : Finset ℕ), (c2final.users p).amount :=
  totalStaked_conservation 1 10 100 0 1000000000 (fun _ => 1000000) c2ops {0, 1}
    (by decide) c2final rfl

/-! ## C10: `rewardDebt` never exceeds the accumulator checkpoint -/

/-- Every position's `rewardDebt` is at most the descaled product of its
amount and the pool's current accumulator. -/
def DebtBounded (s : EngineState) : Prop :=
  ∀ q : ℕ, (s.users q).rewardDebt ≤ (s.users q).amount * s.pool.accRewardPerShare / SCALE

theorem debt_bound_mono {d a acc acc' : ℕ} (h : d ≤ a * acc / SCALE)
    (hacc : acc ≤ acc') : d ≤ a * acc' / SCALE :=
  le_trans h (Nat.div_le_div_right (Nat.mul_le_mul_left a hacc))

theorem step_preserves_debtBounded (now : ℕ) (op : Op) (s s' : EngineState)
    (hb : DebtBounded s) (h : step now op s = .ok s') : DebtBounded s' := by
  have hacc := updatePool_acc_mono now s.pool
  cases op with
  | deposit who amount =>
    simp only [step, deposit] at h
    split_ifs at h <;> cases h <;>
      (intro q
       by_cases hq : q = who
       · subst hq
         simp [Function.update_same]
       · simp only [Function.update_noteq hq]
         exact debt_bound_mono (hb q) hacc)
  | withdraw who amount =>
    simp only [step, withdraw] at h
    split_ifs at h <;> cases h <;>
      (intro q
       by_cases hq : q = who
       · subst hq
         simp [Function.update_same]
       · simp only [Function.update_noteq hq]
         exact debt_bound_mono (hb q) hacc)
  | harvest who =>
    simp only [step, harvest] at h
    split_ifs at h <;> cases h <;>
      (intro q
       by_cases hq : q = who
       · subst hq
         simp [Function.update_same]
       · simp only [Function.update_noteq hq]
         exact debt_bound_mono (hb q) hacc)
  | emergencyWithdraw who =>
    simp only [step, emergencyWithdraw] at h
    split_ifs at h <;> cases h <;>
      (intro q
       by_cases hq : q = who
       · subst hq
         simp [Function.update_same]
       · simp only [Function.update_noteq hq]
         exact hb q)

theorem runOps_debtBounded (ops : List (ℕ × Op)) :
    ∀ s s' : EngineState, DebtBounded s → runOps ops s = some s' → DebtBounded s' := by
  induction ops with
  | nil =>
    intro s s' hb h
    cases h
    exact hb
  | cons hd tl ih =>
    intro s s' hb h
    obtain ⟨tnow, op⟩ := hd
    simp only [runOps] at h
    cases hstep : step tnow op s with
    | error e => rw [hstep] at h; cases h
    | ok s1 =>
      rw [hstep] at h
      exact ih s1 s' (step_preserves_debtBounded tnow op s s1 hb hstep) h

/-- C10: in every state reachable from a freshly created pool by
successful engine operations, every position satisfies
`rewardDebt ≤ ⌊amount * accRewardPerShare / 10^12⌋`; and since the
accumulator never decreases under accrual, the bound also holds against
the accumulator any later `updatePool` would produce — so the `sub`
computing `pending` in `deposit`, `withdraw`, `harvest` and
`pendingReward` never underflows. -/
theorem rewardDebt_le (rps minS lock t0 fund : ℕ) (bal : ℕ → ℕ)
    (ops : List (ℕ × Op)) (s' : EngineState)
    (h : runOps ops (initState rps minS lock t0 fund bal) = some s') :
    DebtBounded s' ∧
    ∀ now q, (s'.users q).rewardDebt ≤
      (s'.users q).amount * (updatePool now s'.pool).accRewardPerShare / SCALE := by
  have hb : DebtBounded s' :=
    runOps_debtBounded ops _ s' (fun q => by simp [initState]) h
  exact ⟨hb, fun now q => debt_bound_mono (hb q) (updatePool_acc_mono now s'.pool)⟩

/-- A run used to instantiate the `rewardDebt` bound. -/
def c10ops : List (ℕ × Op) :=
  [(5, .deposit 0 20), (50, .deposit 1 80), (160, .harvest 0), (170, .withdraw 1 40)]

/-- The fresh pool the `rewardDebt` witness starts from. -/
def c10init : EngineState := initState 2 10 100 0 1000000000 (fun _ => 1000000)

/-- Final state of the `rewardDebt` witness run. -/
def c10final : EngineState := (runOps c10ops c10init).getD c10init

theorem rewardDebt_le_witness :
    (c10final.users 1).rewardDebt ≤
      (c10final.users 1).amount * c10final.pool.accRewardPerShare / SCALE ∧
    (c10final.users 1).rewardDebt ≤
      (c10final.users 1).amount * (updatePool 500 c10final.pool).accRewardPerShare / SCALE := by
  have h := rewardDebt_le 2 10 100 0 1000000000 (fun _ => 1000000) c10ops c10final rfl
  exact ⟨h.1 1, h.2 500 1⟩

/-- A pool state with an active position holding a positive pending
reward, used to instantiate the harvest-idempotence theorem. -/
def c7state : EngineState :=
  { pool :=
      { rewardPerSecond := 1
        lastRewardTime := 7
        accRewardPerShare := SCALE
        totalStaked := 100
        minStakeAmount := 10
        lockPeriod := 100 }
    users := fun _ => { amount := 100, timestamp := 0, rewardDebt := 0, active := true }
    stakeBal := 100
    rewardBal := 1000
    userStakeBal := fun _ => 0
    userRewardBal := fun _ => 0 }

/-- The state after the first, successful, harvest on `c7state`. -/
def c7after : EngineState := okState (harvest 7 0 c7state) c7state

/-- A state whose position 0 is inactive. -/
def c7empty : EngineState := initState 1 10 100 0 0 (fun _ => 0)

theorem harvest_idempotent_witness :
    harvest 7 0 c7empty = .error .noActiveStake ∧
    harvest 7 0 c7after = .error .noPendingRewards := by
  refine ⟨(harvest_idempotent 7 0 c7empty c7empty).1 (by decide), ?_⟩
  exact (harvest_idempotent 7 0 c7state c7after).2.2 rfl
